import Mathlib

/-!
Verification development for the universal-life pricing engine in
`src/rust/src/main.rs` (rate-table construction, monthly account-value
projection, and the bisection premium solver).

Modelling conventions.
* `f64` arithmetic is embedded as exact rational arithmetic (`ℚ`); float
  literals such as `0.005`, `0.06` become the exact rationals `1/200`,
  `6/100`.  `f64::round` (ties away from zero) agrees with Mathlib's
  `round` (ties up) on non-negative arguments, the only ones that arise.
* The two irrational constants built by `get_rates` via `f64::powf`
  (`1.01^(-1/12)` and `1.03^(1/12) - 1`) cannot be rational; the embedded
  `get_rates` receives them as parameters.
* A 121-entry `[f64; 121]` rate series is a total function `ℕ → ℚ`
  together with the explicit bounds check of every array access: an
  out-of-bounds access (a Rust panic) is modelled as `none`.
* The CSV readers are embedded over already-parsed record lists (the spec
  treats file I/O as an external collaborator); a `Result::Err` or a panic
  is `none`.
* The source's unbounded `loop`/`while` in `solve_for_premium` is embedded
  with a fuel parameter; `none` on fuel exhaustion.  Termination claims are
  statements of the form `∃ fuel, … = some _`.
* Issue age is `ℕ`; the source type is `i8`, and for ages `≥ 121` the Rust
  expression `12 * (121 - issue_age)` is non-positive, giving an empty
  `0..n` range, exactly as the truncated `ℕ` subtraction does here.
-/

namespace Valact

/-- The rate table built by `get_rates`: seven named series.  The source
keeps them in a `HashMap<&str, [f64; 121]>`; here each series is a field. -/
structure RateTable where
  premium_loads : ℕ → ℚ
  policy_fees : ℕ → ℚ
  unit_loads : ℕ → ℚ
  corr_facts : ℕ → ℚ
  naar_discs : ℕ → ℚ
  coi_rates : ℕ → ℚ
  interest_rates : ℕ → ℚ

/-- One month of the account-value recurrence, the body of the `for` loop in
`at_issue_projection` (src/rust/src/main.rs:109-120).  `py` is the current
`policy_year`; every series is read at index `py - 1`. -/
def projStep (t : RateTable) (face premium : ℚ) (py : ℕ) (s : ℚ) : ℚ :=
  let premium_load := premium * t.premium_loads (py - 1)
  let expense_charge := (t.policy_fees (py - 1) + t.unit_loads (py - 1) * face / 1000) / 12
  let av_for_db := s + premium - premium_load - expense_charge
  let db := max face (t.corr_facts (py - 1) * av_for_db)
  let naar := max (db * t.naar_discs (py - 1) - max av_for_db 0) 0
  let coi := naar / 1000 * (t.coi_rates (py - 1) / 12)
  let av_for_interest := av_for_db - coi
  let interest := max (av_for_interest * t.interest_rates (py - 1)) 0
  av_for_interest + interest

/-- The month loop of `at_issue_projection`: `n` months remain, `i` is the
month index, `py` the mutable `policy_year`, `ev` the carried `end_value`.
The `py - 1 < 121` guard is the bounds check of the seven `[policy_year-1]`
array accesses; its failure (a Rust panic) is `none`. -/
def projChecked (t : RateTable) (face premium : ℚ) : ℕ → ℕ → ℕ → ℚ → Option ℚ
  | 0, _i, _py, ev => some ev
  | n + 1, i, py, ev =>
    let py' := if i % 12 = 0 then py + 1 else py
    let prem := if i % 12 = 0 then premium else 0
    if py' - 1 < 121 then
      projChecked t face premium n (i + 1) py' (projStep t face prem py' ev)
    else none

/-- `at_issue_projection` (src/rust/src/main.rs:102-124): iterate the monthly
recurrence for `12 * (121 - issue_age)` months from `end_value = 0`,
`policy_year = 0`. -/
def at_issue_projection (t : RateTable) (issue_age : ℕ) (face premium : ℚ) : Option ℚ :=
  projChecked t face premium (12 * (121 - issue_age)) 0 0 0

/-- One month of the reference recurrence as the spec words it (§4.2 of the
spec): the policy year of month `i` is read off directly as `i / 12 + 1`
(0-based series index `i / 12`), the premium is credited only when
`i mod 12 = 0`, and the floors are written `max 0 _`. -/
def specMonth (t : RateTable) (face premium : ℚ) (i : ℕ) (s : ℚ) : ℚ :=
  let j := i / 12
  let prem := if i % 12 = 0 then premium else 0
  let premium_load := prem * t.premium_loads j
  let expense_charge := (t.policy_fees j + t.unit_loads j * face / 1000) / 12
  let av_db := s + prem - premium_load - expense_charge
  let db := max face (t.corr_facts j * av_db)
  let naar := max 0 (db * t.naar_discs j - max 0 av_db)
  let coi := naar / 1000 * (t.coi_rates j / 12)
  let av_int := av_db - coi
  av_int + max 0 (av_int * t.interest_rates j)

/-- The reference projection of the spec: fold the monthly recurrence over
month indices `0, …, 12 * (121 - issue_age) - 1`, starting from `0`. -/
def project_spec (t : RateTable) (issue_age : ℕ) (face premium : ℚ) : ℚ :=
  (List.range (12 * (121 - issue_age))).foldl (fun s i => specMonth t face premium i s) 0

/-- Rounding to the nearest cent, `(x * 100.0).round() / 100.0`
(src/rust/src/main.rs:153).  `f64::round` ties away from zero and Mathlib's
`round` ties upward; they agree for the non-negative values that occur. -/
def roundCent (x : ℚ) : ℚ := (round (x * 100) : ℤ) / 100

/-- The bracketing `loop` of `solve_for_premium` (src/rust/src/main.rs:133-142),
with a fuel parameter standing in for the unbounded `loop`. -/
def bracket (t : RateTable) (issue_age : ℕ) (face : ℚ) : ℕ → ℚ → ℚ → Option (ℚ × ℚ)
  | 0, _lo, _hi => none
  | n + 1, lo, hi =>
    match at_issue_projection t issue_age face hi with
    | none => none
    | some ev =>
      if ev ≤ 0 then bracket t issue_age face n hi (hi * 2) else some (lo, hi)

/-- The bisection `while` of `solve_for_premium` (src/rust/src/main.rs:144-151),
fuelled; returns the final `(guess_lo, guess_hi, guess_md)`. -/
def bisect (t : RateTable) (issue_age : ℕ) (face : ℚ) :
    ℕ → ℚ → ℚ → ℚ → Option (ℚ × ℚ × ℚ)
  | 0, lo, hi, md => if hi - lo > 1 / 200 then none else some (lo, hi, md)
  | n + 1, lo, hi, md =>
    if hi - lo > 1 / 200 then
      let md' := (lo + hi) / 2
      match at_issue_projection t issue_age face md' with
      | none => none
      | some ev =>
        if ev ≤ 0 then bisect t issue_age face n md' hi md'
        else bisect t issue_age face n lo md' md'
    else some (lo, hi, md)

/-- `solve_for_premium` (src/rust/src/main.rs:126-158): bracket from
`(0, face/100)`, bisect to half a cent (`guess_md` starts at `0.0`), round the
final midpoint to a cent and add one cent if the rounded premium still fails. -/
def solve_for_premium (fuel : ℕ) (t : RateTable) (issue_age : ℕ) (face : ℚ) : Option ℚ :=
  match bracket t issue_age face fuel 0 (face / 100) with
  | none => none
  | some (lo, hi) =>
    match bisect t issue_age face fuel lo hi 0 with
    | none => none
    | some (_, _, md) =>
      let result := roundCent md
      match at_issue_projection t issue_age face result with
      | none => none
      | some ev => some (if ev ≤ 0 then result + 1 / 100 else result)

/-- Bracketing phase as the spec words it (§4.3, step 1), on an abstract
objective `f`: while `f hi ≤ 0`, set `lo := hi` and double `hi`. -/
def bracket_spec (f : ℚ → ℚ) : ℕ → ℚ → ℚ → Option (ℚ × ℚ)
  | 0, _lo, _hi => none
  | n + 1, lo, hi =>
    if f hi ≤ 0 then bracket_spec f n hi (2 * hi) else some (lo, hi)

/-- Bisection phase as the spec words it (§4.3, step 2): while
`hi - lo > 0.005`, move `lo` to the midpoint when `f mid ≤ 0`, else `hi`. -/
def bisect_spec (f : ℚ → ℚ) : ℕ → ℚ → ℚ → ℚ → Option (ℚ × ℚ × ℚ)
  | 0, lo, hi, md => if hi - lo > 1 / 200 then none else some (lo, hi, md)
  | n + 1, lo, hi, md =>
    if hi - lo > 1 / 200 then
      let md' := (lo + hi) / 2
      if f md' ≤ 0 then bisect_spec f n md' hi md' else bisect_spec f n lo md' md'
    else some (lo, hi, md)

/-- The two-phase solver as the spec words it (§4.3): bracket from
`(0, face/100)`, bisect, round the midpoint to the nearest cent, and add one
cent exactly once if the rounded value still has `f ≤ 0`. -/
def solve_premium_spec (f : ℚ → ℚ) (face : ℚ) (fuel : ℕ) : Option ℚ :=
  match bracket_spec f fuel 0 (face / 100) with
  | none => none
  | some (lo, hi) =>
    match bisect_spec f fuel lo hi 0 with
    | none => none
    | some (_, _, md) =>
      let r := roundCent md
      some (if f r ≤ 0 then r + 1 / 100 else r)

/-- A parsed row of the `(Issue_Age, Policy_Year, Rate)` CSV shape. -/
structure IAPYRecord where
  issue_age : ℤ
  policy_year : ℤ
  rate : ℚ

/-- A parsed row of the `(Gender, Risk_Class, Issue_Age, Policy_Year, Rate)`
CSV shape. -/
structure GenRCIAPYRecord where
  gender : String
  risk_class : String
  issue_age : ℤ
  policy_year : ℤ
  rate : ℚ

/-- A parsed row of the `(Attained_Age, Rate)` CSV shape. -/
structure AARecord where
  attained_age : ℤ
  rate : ℚ

/-- A single guarded array write `rates[idx] = x`.  The guard is the array
bounds check: in Rust the `i8` index expression is cast with `as usize`, so a
negative value wraps to a huge index, and any index outside `0..121` panics —
modelled as `none`. -/
def writeRate (arr : ℕ → ℚ) (idx : ℤ) (x : ℚ) : Option (ℕ → ℚ) :=
  if 0 ≤ idx ∧ idx < 121 then some (fun j => if (j : ℤ) = idx then x else arr j) else none

/-- The shared row loop of the three CSV readers: `tw` decides whether a row
matches and, if so, which `(index, rate)` write it performs. -/
def readRows {α : Type} (tw : α → Option (ℤ × ℚ)) (rows : List α) (arr : ℕ → ℚ) :
    Option (ℕ → ℚ) :=
  match rows with
  | [] => some arr
  | r :: rest =>
    match tw r with
    | none => readRows tw rest arr
    | some (idx, x) =>
      match writeRate arr idx x with
      | none => none
      | some arr2 => readRows tw rest arr2

/-- The row action of `read_ia_py_csv` (src/rust/src/main.rs:63-67): rows whose
issue age matches write their rate at index `policy_year - 1`. -/
def iapyWrite (issue_age : ℤ) (r : IAPYRecord) : Option (ℤ × ℚ) :=
  if r.issue_age = issue_age then some (r.policy_year - 1, r.rate) else none

/-- The row action of `read_gen_rc_ia_py_csv` (src/rust/src/main.rs:78-83):
exact match on gender, risk class and issue age, write at `policy_year - 1`. -/
def genWrite (gender risk_class : String) (issue_age : ℤ) (r : GenRCIAPYRecord) :
    Option (ℤ × ℚ) :=
  if r.gender = gender ∧ r.risk_class = risk_class ∧ r.issue_age = issue_age then
    some (r.policy_year - 1, r.rate)
  else none

/-- The row action of `read_aa_csv` (src/rust/src/main.rs:93-98): rows with
`attained_age ≥ issue_age` write at index `attained_age - issue_age`. -/
def aaWrite (issue_age : ℤ) (r : AARecord) : Option (ℤ × ℚ) :=
  if issue_age ≤ r.attained_age then some (r.attained_age - issue_age, r.rate) else none

/-- `read_ia_py_csv` (src/rust/src/main.rs:55-69) over already-parsed rows. -/
def read_ia_py_csv (rows : List IAPYRecord) (default : ℚ) (issue_age : ℤ) :
    Option (ℕ → ℚ) :=
  readRows (iapyWrite issue_age) rows (fun _ => default)

/-- `read_gen_rc_ia_py_csv` (src/rust/src/main.rs:71-85) over parsed rows. -/
def read_gen_rc_ia_py_csv (rows : List GenRCIAPYRecord) (default : ℚ)
    (gender risk_class : String) (issue_age : ℤ) : Option (ℕ → ℚ) :=
  readRows (genWrite gender risk_class issue_age) rows (fun _ => default)

/-- `read_aa_csv` (src/rust/src/main.rs:87-100) over parsed rows. -/
def read_aa_csv (rows : List AARecord) (default : ℚ) (issue_age : ℤ) :
    Option (ℕ → ℚ) :=
  readRows (aaWrite issue_age) rows (fun _ => default)

/-- The rate of the last write targeting index `j`, if any: used to state the
last-match-wins behaviour of the sequential row loop. -/
def lastWrite (ws : List (ℤ × ℚ)) (j : ℕ) : Option ℚ :=
  ws.foldl (fun acc w => if w.1 = (j : ℤ) then some w.2 else acc) none

/-- `get_rates` (src/rust/src/main.rs:160-170), over parsed row lists.  The two
constants the source computes with `f64::powf` — `naar_disc = 1.01^(-1/12)` and
`monthly_int = 1.03^(1/12) - 1` — are irrational and enter as parameters; the
float literal `0.06` is embedded as the exact `6/100`. -/
def get_rates (unitRows : List IAPYRecord) (corrRows : List AARecord)
    (coiRows : List GenRCIAPYRecord) (naar_disc monthly_int : ℚ)
    (gender risk_class : String) (issue_age : ℤ) : Option RateTable :=
  match read_ia_py_csv unitRows 0 issue_age with
  | none => none
  | some ul =>
    match read_aa_csv corrRows 1 issue_age with
    | none => none
    | some cf =>
      match read_gen_rc_ia_py_csv coiRows 0 gender risk_class issue_age with
      | none => none
      | some coi =>
        some { premium_loads := fun _ => 6 / 100, policy_fees := fun _ => 120,
               unit_loads := ul, corr_facts := cf, naar_discs := fun _ => naar_disc,
               coi_rates := coi, interest_rates := fun _ => monthly_int }

/-- Sufficient per-year conditions for the projection to be monotone in the
premium: proportional loads at most 100%, non-negative corridor factors and
NAAR discounts with product at most 1, non-negative COI rates, and crediting
rates at least −100%. -/
def MonotoneTable (t : RateTable) (face : ℚ) : Prop :=
  0 ≤ face ∧ ∀ j < 121, t.premium_loads j ≤ 1 ∧ 0 ≤ t.corr_facts j ∧
    0 ≤ t.naar_discs j ∧ t.corr_facts j * t.naar_discs j ≤ 1 ∧
    0 ≤ t.coi_rates j ∧ -1 ≤ t.interest_rates j

/-- A rate table with every series zero: charges vanish and the account value
simply accumulates the credited premiums. -/
def zeroT : RateTable :=
  ⟨fun _ => 0, fun _ => 0, fun _ => 0, fun _ => 0, fun _ => 0, fun _ => 0, fun _ => 0⟩

/-- A rate table whose premium load is 200%: crediting more premium strictly
lowers the account value. -/
def loadT : RateTable := { zeroT with premium_loads := fun _ => 2 }

/-- A rate table whose premium load is exactly 100% and whose policy fee is
120/year: the premium cancels out of the projection, which is the constant
`-120`, so no premium can ever make the policy solvent. -/
def stuckT : RateTable :=
  { zeroT with premium_loads := fun _ => 1, policy_fees := fun _ => 120 }

/-- Two duration-keyed rows for the same cohort hitting the same index
(policy year 3), with different rates; used to exhibit last-match-wins. -/
def demoRows : List IAPYRecord := [⟨35, 3, 5⟩, ⟨35, 3, 7⟩]

/- ------------------------------------------------------------------ -/
/- Theorems.                                                           -/
/- ------------------------------------------------------------------ -/

theorem specMonth_eq_projStep (t : RateTable) (face premium : ℚ) (i : ℕ) (s : ℚ) :
    specMonth t face premium i s =
      projStep t face (if i % 12 = 0 then premium else 0) (i / 12 + 1) s := by
  simp only [specMonth, projStep, Nat.add_sub_cancel]
  rw [max_comm (0 : ℚ) (s + _ - _ - _)]
  rw [max_comm (0 : ℚ) (max _ _ * _ - _)]
  rw [max_comm (0 : ℚ) (_ * t.interest_rates (i / 12))]

theorem projChecked_eq (t : RateTable) (face premium : ℚ) :
    ∀ (n i py : ℕ) (ev : ℚ), i + n ≤ 12 * 121 →
      py = i / 12 + (if i % 12 = 0 then 0 else 1) →
      projChecked t face premium n i py ev =
        some ((List.range' i n).foldl (fun s k => specMonth t face premium k s) ev) := by
  intro n
  induction n with
  | zero => intro i py ev _ _; simp [projChecked]
  | succ n ih =>
    intro i py ev hle hpy
    have hpy' : (if i % 12 = 0 then py + 1 else py) = i / 12 + 1 := by
      by_cases h : i % 12 = 0 <;> simp [h] at hpy ⊢ <;> omega
    have hnext : i / 12 + 1 = (i + 1) / 12 + (if (i + 1) % 12 = 0 then 0 else 1) := by
      by_cases h : (i + 1) % 12 = 0 <;> simp [h] <;> omega
    have hcheck : (if i % 12 = 0 then py + 1 else py) - 1 < 121 := by omega
    rw [projChecked, if_pos hcheck, hpy',
      ih (i + 1) (i / 12 + 1) _ (by omega) hnext]
    have hrange : List.range' i (n + 1) = i :: List.range' (i + 1) n := rfl
    rw [hrange, List.foldl_cons, specMonth_eq_projStep]

/-- Evaluating the source projection never panics: for every issue age it
returns exactly the spec's reference recurrence. -/
theorem proj_eq (t : RateTable) (issue_age : ℕ) (face premium : ℚ) :
    at_issue_projection t issue_age face premium =
      some (project_spec t issue_age face premium) := by
  have h := projChecked_eq t face premium (12 * (121 - issue_age)) 0 0 0
    (by have : 121 - issue_age ≤ 121 := Nat.sub_le _ _; omega) (by simp)
  rw [at_issue_projection, h, project_spec, List.range_eq_range']

theorem bracket_eq (t : RateTable) (a : ℕ) (F : ℚ) :
    ∀ (n : ℕ) (lo hi : ℚ),
      bracket t a F n lo hi = bracket_spec (project_spec t a F) n lo hi := by
  intro n
  induction n with
  | zero => intro lo hi; rfl
  | succ n ih =>
    intro lo hi
    rw [bracket, bracket_spec, proj_eq]
    by_cases h : project_spec t a F hi ≤ 0
    · simp only [h, if_true, ih, mul_comm]
    · simp only [h, if_false]

theorem bisect_eq (t : RateTable) (a : ℕ) (F : ℚ) :
    ∀ (n : ℕ) (lo hi md : ℚ),
      bisect t a F n lo hi md = bisect_spec (project_spec t a F) n lo hi md := by
  intro n
  induction n with
  | zero => intro lo hi md; rfl
  | succ n ih =>
    intro lo hi md
    rw [bisect, bisect_spec]
    by_cases hgap : hi - lo > 1 / 200
    · simp only [hgap, if_true, proj_eq]
      by_cases h : project_spec t a F ((lo + hi) / 2) ≤ 0 <;>
        simp only [h, if_true, if_false, ih]
    · simp only [hgap, if_false]

/-- The source solver, with the `Result`-threaded projection calls resolved,
is exactly the spec's two-phase algorithm run on the pure objective
`f = project_spec t a F`. -/
theorem solve_eq (fuel : ℕ) (t : RateTable) (a : ℕ) (F : ℚ) :
    solve_for_premium fuel t a F = solve_premium_spec (project_spec t a F) F fuel := by
  rw [solve_for_premium, solve_premium_spec, bracket_eq]
  cases hbr : bracket_spec (project_spec t a F) fuel 0 (F / 100) with
  | none => rfl
  | some p =>
    obtain ⟨lo, hi⟩ := p
    simp only [bisect_eq]
    cases hbs : bisect_spec (project_spec t a F) fuel lo hi 0 with
    | none => rfl
    | some q =>
      obtain ⟨lo', hi', md⟩ := q
      simp only [proj_eq]

theorem bracket_spec_exit {f : ℚ → ℚ} {hi : ℚ} (h : 0 < f hi) (n : ℕ) (lo : ℚ) :
    bracket_spec f (n + 1) lo hi = some (lo, hi) := by
  simp [bracket_spec, not_le.mpr h]

theorem bracket_spec_step {f : ℚ → ℚ} {hi : ℚ} (h : f hi ≤ 0) (n : ℕ) (lo : ℚ) :
    bracket_spec f (n + 1) lo hi = bracket_spec f n hi (2 * hi) := by
  simp [bracket_spec, h]

theorem bisect_spec_stop {f : ℚ → ℚ} {lo hi : ℚ} (h : hi - lo ≤ 1 / 200) (n : ℕ) (md : ℚ) :
    bisect_spec f n lo hi md = some (lo, hi, md) := by
  cases n with
  | zero => rw [bisect_spec, if_neg (not_lt.mpr h)]
  | succ n => rw [bisect_spec, if_neg (not_lt.mpr h)]

theorem bisect_spec_stepLo {f : ℚ → ℚ} {lo hi : ℚ} (hgap : 1 / 200 < hi - lo)
    (h : f ((lo + hi) / 2) ≤ 0) (n : ℕ) (md : ℚ) :
    bisect_spec f (n + 1) lo hi md = bisect_spec f n ((lo + hi) / 2) hi ((lo + hi) / 2) := by
  rw [bisect_spec, if_pos hgap]
  simp only [h, if_true]

theorem bisect_spec_stepHi {f : ℚ → ℚ} {lo hi : ℚ} (hgap : 1 / 200 < hi - lo)
    (h : ¬ f ((lo + hi) / 2) ≤ 0) (n : ℕ) (md : ℚ) :
    bisect_spec f (n + 1) lo hi md = bisect_spec f n lo ((lo + hi) / 2) ((lo + hi) / 2) := by
  rw [bisect_spec, if_pos hgap]
  simp only [h, if_false]

theorem roundHalfCent : roundCent (1 / 200) = 1 / 100 := by
  have h : ((1 : ℚ) / 200) * 100 = 1 / 2 := by norm_num
  rw [roundCent, h, round_eq]
  norm_num

theorem zeroT_month (F P : ℚ) (i : ℕ) (s : ℚ) :
    specMonth zeroT F P i s = s + (if i % 12 = 0 then P else 0) := by
  have h1 : max (0 : ℚ) (-(max 0 (s + (if i % 12 = 0 then P else 0)))) = 0 :=
    max_eq_left (neg_nonpos.mpr (le_max_left 0 _))
  simp [specMonth, zeroT]

theorem range12 : List.range 12 = [0, 1, 2, 3, 4, 5, 6, 7, 8, 9, 10, 11] := by decide

/-- On the all-zero rate table at issue age 120 the projection is the
identity: the single credited annual premium is returned unchanged. -/
theorem project_spec_zeroT (F P : ℚ) : project_spec zeroT 120 F P = P := by
  show (List.range (12 * (121 - 120))).foldl _ 0 = P
  norm_num [range12, zeroT_month]

theorem solve_zeroT : solve_for_premium 10 zeroT 120 1 = some (1 / 100) := by
  rw [solve_eq]
  have hb : bracket_spec (project_spec zeroT 120 1) 10 0 ((1 : ℚ) / 100) = some (0, 1 / 100) :=
    bracket_spec_exit (by rw [project_spec_zeroT]; norm_num) 9 0
  have h1 : ((0 : ℚ) + 1 / 100) / 2 = 1 / 200 := by norm_num
  have hs : bisect_spec (project_spec zeroT 120 1) 10 0 (1 / 100) 0 =
      some (0, 1 / 200, 1 / 200) := by
    rw [bisect_spec_stepHi (by norm_num) (by rw [h1, project_spec_zeroT]; norm_num) 9 0, h1,
      bisect_spec_stop (by norm_num) 9 (1 / 200)]
  rw [solve_premium_spec]
  norm_num [hb, hs, roundHalfCent, project_spec_zeroT]

/-- The net amount at risk is non-increasing in the account value when the
corridor factor and NAAR discount are non-negative with product at most 1. -/
theorem naar_antimono {F c d a₁ a₂ : ℚ} (hF : 0 ≤ F) (hc : 0 ≤ c) (hd : 0 ≤ d)
    (hcd : c * d ≤ 1) (ha : a₁ ≤ a₂) :
    max (max F (c * a₂) * d - max a₂ 0) 0 ≤ max (max F (c * a₁) * d - max a₁ 0) 0 := by
  refine max_le ?_ (le_max_right _ _)
  rcases le_or_lt a₂ 0 with h2 | h2
  · have h1 : a₁ ≤ 0 := le_trans ha h2
    have e2 : max F (c * a₂) = F := max_eq_left (by nlinarith)
    have e1 : max F (c * a₁) = F := max_eq_left (by nlinarith)
    have m2 : max a₂ 0 = 0 := max_eq_right h2
    have m1 : max a₁ 0 = 0 := max_eq_right h1
    rw [e2, m2, e1, m1] at *
    exact le_max_left _ _
  · have m2 : max a₂ 0 = a₂ := max_eq_left h2.le
    rcases le_or_lt (c * a₂) F with h3 | h3
    · have e2 : max F (c * a₂) = F := max_eq_left h3
      have hFd : F * d ≤ max F (c * a₁) * d :=
        mul_le_mul_of_nonneg_right (le_max_left _ _) hd
      have hm1 : max a₁ 0 ≤ a₂ := max_le ha h2.le
      calc max F (c * a₂) * d - max a₂ 0 = F * d - a₂ := by rw [e2, m2]
        _ ≤ max F (c * a₁) * d - max a₁ 0 := by linarith
        _ ≤ max (max F (c * a₁) * d - max a₁ 0) 0 := le_max_left _ _
    · have e2 : max F (c * a₂) = c * a₂ := max_eq_right h3.le
      have : max F (c * a₂) * d - max a₂ 0 ≤ 0 := by rw [e2, m2]; nlinarith
      exact le_trans this (le_max_right _ _)

/-- Crediting interest floored at zero preserves order in the balance as long
as the crediting rate is at least −100%. -/
theorem credit_mono {ir x₁ x₂ : ℚ} (hir : -1 ≤ ir) (hx : x₁ ≤ x₂) :
    x₁ + max (x₁ * ir) 0 ≤ x₂ + max (x₂ * ir) 0 := by
  rcases le_or_lt (x₁ * ir) 0 with h1 | h1
  · rw [max_eq_right h1]
    have : (0 : ℚ) ≤ max (x₂ * ir) 0 := le_max_right _ _
    linarith
  · rw [max_eq_left h1.le]
    rcases le_or_lt 0 ir with hir0 | hir0
    · have hx1 : 0 < x₁ := by nlinarith
      have h2 : x₁ * ir ≤ x₂ * ir := mul_le_mul_of_nonneg_right hx hir0
      have : x₂ + x₂ * ir ≤ x₂ + max (x₂ * ir) 0 := by
        have := le_max_left (x₂ * ir) (0 : ℚ); linarith
      linarith
    · have hx1 : x₁ < 0 := by nlinarith
      rcases le_or_lt x₂ 0 with hx2 | hx2
      · have h0 : 0 ≤ x₂ * ir := by
          nlinarith [mul_nonneg (neg_nonneg.mpr hx2) (neg_nonneg.mpr hir0.le)]
        rw [max_eq_left h0]
        nlinarith
      · have hl : x₁ + x₁ * ir ≤ 0 := by nlinarith
        have : (0 : ℚ) ≤ max (x₂ * ir) 0 := le_max_right _ _
        linarith

/-- Everything after the premium/expense stage of a month is monotone in the
account value going in. -/
theorem after_charges_mono {F c d cr ir a₁ a₂ : ℚ} (hF : 0 ≤ F) (hc : 0 ≤ c)
    (hd : 0 ≤ d) (hcd : c * d ≤ 1) (hcr : 0 ≤ cr) (hir : -1 ≤ ir) (ha : a₁ ≤ a₂) :
    a₁ - max (max F (c * a₁) * d - max a₁ 0) 0 / 1000 * (cr / 12) +
      max ((a₁ - max (max F (c * a₁) * d - max a₁ 0) 0 / 1000 * (cr / 12)) * ir) 0 ≤
    a₂ - max (max F (c * a₂) * d - max a₂ 0) 0 / 1000 * (cr / 12) +
      max ((a₂ - max (max F (c * a₂) * d - max a₂ 0) 0 / 1000 * (cr / 12)) * ir) 0 := by
  have hn := naar_antimono hF hc hd hcd ha
  have hi : a₁ - max (max F (c * a₁) * d - max a₁ 0) 0 / 1000 * (cr / 12) ≤
      a₂ - max (max F (c * a₂) * d - max a₂ 0) 0 / 1000 * (cr / 12) := by nlinarith
  exact credit_mono hir hi

/-- One month of the recurrence is monotone simultaneously in the premium and
the incoming balance, under `MonotoneTable`. -/
theorem projStep_mono {t : RateTable} {face : ℚ} (ht : MonotoneTable t face) (py : ℕ)
    (hpy : py - 1 < 121) {p₁ p₂ s₁ s₂ : ℚ} (hp : p₁ ≤ p₂) (hs : s₁ ≤ s₂) :
    projStep t face p₁ py s₁ ≤ projStep t face p₂ py s₂ := by
  obtain ⟨hF, hall⟩ := ht
  obtain ⟨hL, hc, hd, hcd, hcr, hir⟩ := hall (py - 1) hpy
  simp only [projStep]
  have hav : s₁ + p₁ - p₁ * t.premium_loads (py - 1) -
      (t.policy_fees (py - 1) + t.unit_loads (py - 1) * face / 1000) / 12 ≤
      s₂ + p₂ - p₂ * t.premium_loads (py - 1) -
      (t.policy_fees (py - 1) + t.unit_loads (py - 1) * face / 1000) / 12 := by
    nlinarith [mul_le_mul_of_nonneg_right hp (sub_nonneg.mpr hL)]
  exact after_charges_mono hF hc hd hcd hcr hir hav

/-- `List.range (n+1)` folds are the `n`-fold followed by one more step. -/
theorem foldl_range_succ (g : ℚ → ℕ → ℚ) (z : ℚ) (n : ℕ) :
    (List.range (n + 1)).foldl g z = g ((List.range n).foldl g z) n := by
  rw [List.range_succ, List.foldl_append, List.foldl_cons, List.foldl_nil]

theorem foldl_specMonth_mono {t : RateTable} {face : ℚ} (ht : MonotoneTable t face)
    {P₁ P₂ : ℚ} (hP : P₁ ≤ P₂) :
    ∀ n, n ≤ 12 * 121 →
      (List.range n).foldl (fun s i => specMonth t face P₁ i s) 0 ≤
        (List.range n).foldl (fun s i => specMonth t face P₂ i s) 0 := by
  intro n
  induction n with
  | zero => intro _; simp
  | succ n ih =>
    intro hn
    rw [foldl_range_succ, foldl_range_succ]
    rw [specMonth_eq_projStep, specMonth_eq_projStep]
    have hidx : n / 12 + 1 - 1 < 121 := by omega
    have hprem : (if n % 12 = 0 then P₁ else 0) ≤ (if n % 12 = 0 then P₂ else 0) := by
      by_cases h : n % 12 = 0 <;> simp [h, hP]
    exact projStep_mono ht _ hidx hprem (ih (by omega))

/-- Under `MonotoneTable`, the projected final account value is monotone in
the annual premium (for every issue age). -/
theorem project_spec_mono {t : RateTable} {face : ℚ} (a : ℕ) (ht : MonotoneTable t face) :
    Monotone (fun p => project_spec t a face p) := by
  intro P₁ P₂ hP
  have hn : 12 * (121 - a) ≤ 12 * 121 :=
    Nat.mul_le_mul_left 12 (Nat.sub_le _ _)
  exact foldl_specMonth_mono ht hP _ hn

theorem roundCent_ge (x : ℚ) : x - 1 / 200 ≤ roundCent x := by
  have h := abs_sub_round (x * 100)
  rw [abs_le] at h
  rw [roundCent]
  have := h.1
  linarith

theorem roundCent_le (x : ℚ) : roundCent x ≤ x + 1 / 200 := by
  have h := abs_sub_round (x * 100)
  rw [abs_le] at h
  rw [roundCent]
  have := h.2
  linarith

theorem roundCent_zero : roundCent 0 = 0 := by
  simp [roundCent]

/-- What a successful bracketing run guarantees about its output: the bracket
stays ordered and non-negative, `f` is positive at the top, and the output is
either the untouched input pair or a doubled pair with `f lo' ≤ 0`. -/
theorem bracket_spec_some {f : ℚ → ℚ} :
    ∀ {n : ℕ} {lo hi lo' hi' : ℚ}, bracket_spec f n lo hi = some (lo', hi') →
      0 ≤ lo → lo ≤ hi → 0 < hi →
      0 ≤ lo' ∧ lo' ≤ hi' ∧ 0 < hi' ∧ 0 < f hi' ∧
        ((lo' = lo ∧ hi' = hi) ∨ (f lo' ≤ 0 ∧ hi' = 2 * lo')) := by
  intro n
  induction n with
  | zero => intro lo hi lo' hi' h; exact absurd h (by simp [bracket_spec])
  | succ n ih =>
    intro lo hi lo' hi' h h0 hlh hhi
    rw [bracket_spec] at h
    by_cases hf : f hi ≤ 0
    · rw [if_pos hf] at h
      have hrec := ih h hhi.le (by linarith) (by linarith)
      obtain ⟨a, b, c, d, e⟩ := hrec
      refine ⟨a, b, c, d, Or.inr ?_⟩
      rcases e with ⟨rfl, rfl⟩ | ⟨hfl, hdbl⟩
      · exact ⟨hf, rfl⟩
      · exact ⟨hfl, hdbl⟩
    · rw [if_neg hf] at h
      obtain ⟨rfl, rfl⟩ : lo = lo' ∧ hi = hi' := by
        have := h; simp at this; exact ⟨this.1, this.2⟩
      exact ⟨h0, hlh, hhi, lt_of_not_le hf, Or.inl ⟨rfl, rfl⟩⟩

/-- What a successful bisection run guarantees: the final bracket is ordered,
non-negative, at most half a cent wide, `f` changes sign across it (with
`lo' = 0` allowed at the bottom), and the final midpoint is one of the final
endpoints — or is the untouched initial `0` with `hi' ≤ 0.01`. -/
theorem bisect_spec_some {f : ℚ → ℚ} :
    ∀ {n : ℕ} {lo hi md lo' hi' md' : ℚ},
      bisect_spec f n lo hi md = some (lo', hi', md') →
      0 ≤ lo → lo ≤ hi → (lo = 0 ∨ f lo ≤ 0) → 0 < f hi →
      (md = lo ∨ md = hi ∨ (md = 0 ∧ (hi - lo ≤ 1 / 200 → hi ≤ 1 / 100))) →
      0 ≤ lo' ∧ lo' ≤ hi' ∧ (lo' = 0 ∨ f lo' ≤ 0) ∧ 0 < f hi' ∧ hi' - lo' ≤ 1 / 200 ∧
        (md' = lo' ∨ md' = hi' ∨ (md' = 0 ∧ hi' ≤ 1 / 100)) := by
  intro n
  induction n with
  | zero =>
    intro lo hi md lo' hi' md' h h0 hlh hflo hfhi hmd
    rw [bisect_spec] at h
    by_cases hgap : hi - lo > 1 / 200
    · rw [if_pos hgap] at h; exact absurd h (by simp)
    · rw [if_neg hgap] at h
      obtain ⟨rfl, rfl, rfl⟩ : lo = lo' ∧ hi = hi' ∧ md = md' := by
        have := h; simp at this; exact ⟨this.1, this.2.1, this.2.2⟩
      have hgap' : hi - lo ≤ 1 / 200 := not_lt.mp hgap
      refine ⟨h0, hlh, hflo, hfhi, hgap', ?_⟩
      rcases hmd with rfl | rfl | ⟨rfl, himp⟩
      · exact Or.inl rfl
      · exact Or.inr (Or.inl rfl)
      · exact Or.inr (Or.inr ⟨rfl, himp hgap'⟩)
  | succ n ih =>
    intro lo hi md lo' hi' md' h h0 hlh hflo hfhi hmd
    rw [bisect_spec] at h
    by_cases hgap : hi - lo > 1 / 200
    · rw [if_pos hgap] at h
      simp only at h
      by_cases hf : f ((lo + hi) / 2) ≤ 0
      · rw [if_pos hf] at h
        exact ih h (by linarith) (by linarith) (Or.inr hf) hfhi (Or.inl rfl)
      · rw [if_neg hf] at h
        exact ih h h0 (by linarith) hflo (lt_of_not_le hf) (Or.inr (Or.inl rfl))
    · rw [if_neg hgap] at h
      obtain ⟨rfl, rfl, rfl⟩ : lo = lo' ∧ hi = hi' ∧ md = md' := by
        have := h; simp at this; exact ⟨this.1, this.2.1, this.2.2⟩
      have hgap' : hi - lo ≤ 1 / 200 := not_lt.mp hgap
      refine ⟨h0, hlh, hflo, hfhi, hgap', ?_⟩
      rcases hmd with rfl | rfl | ⟨rfl, himp⟩
      · exact Or.inl rfl
      · exact Or.inr (Or.inl rfl)
      · exact Or.inr (Or.inr ⟨rfl, himp hgap'⟩)

theorem solve_premium_spec_eqn {f : ℚ → ℚ} {F : ℚ} {fuel : ℕ} {lo hi lo₂ hi₂ md : ℚ}
    (hbr : bracket_spec f fuel 0 (F / 100) = some (lo, hi))
    (hbs : bisect_spec f fuel lo hi 0 = some (lo₂, hi₂, md)) :
    solve_premium_spec f F fuel =
      some (if f (roundCent md) ≤ 0 then roundCent md + 1 / 100 else roundCent md) := by
  simp [solve_premium_spec, hbr, hbs]

theorem solve_premium_spec_nobr {f : ℚ → ℚ} {F : ℚ} {fuel : ℕ}
    (hbr : bracket_spec f fuel 0 (F / 100) = none) :
    solve_premium_spec f F fuel = none := by
  simp [solve_premium_spec, hbr]

theorem solve_premium_spec_nobs {f : ℚ → ℚ} {F : ℚ} {fuel : ℕ} {lo hi : ℚ}
    (hbr : bracket_spec f fuel 0 (F / 100) = some (lo, hi))
    (hbs : bisect_spec f fuel lo hi 0 = none) :
    solve_premium_spec f F fuel = none := by
  simp [solve_premium_spec, hbr, hbs]

/-- Soundness of the spec solver under monotonicity: whenever it returns a
premium, that premium projects to a non-negative final value. -/
theorem solve_spec_sound {f : ℚ → ℚ} {F : ℚ} {fuel : ℕ} {r : ℚ}
    (hmono : Monotone f) (hF : 0 < F)
    (h : solve_premium_spec f F fuel = some r) : 0 ≤ f r := by
  cases hbr : bracket_spec f fuel 0 (F / 100) with
  | none => rw [solve_premium_spec_nobr hbr] at h; exact absurd h (by simp)
  | some p =>
    obtain ⟨lo, hi⟩ := p
    cases hbs : bisect_spec f fuel lo hi 0 with
    | none => rw [solve_premium_spec_nobs hbr hbs] at h; exact absurd h (by simp)
    | some q =>
      obtain ⟨lo₂, hi₂, md⟩ := q
      rw [solve_premium_spec_eqn hbr hbs] at h
      have hr : r = if f (roundCent md) ≤ 0 then roundCent md + 1 / 100 else roundCent md :=
        (Option.some.inj h).symm
      obtain ⟨hlo0, hlh, hhipos, hfhi, hshape⟩ :=
        bracket_spec_some hbr le_rfl (by positivity) (by positivity)
      have hmd0 : (0 : ℚ) = lo ∨ (0 : ℚ) = hi ∨ ((0 : ℚ) = 0 ∧ (hi - lo ≤ 1 / 200 → hi ≤ 1 / 100)) := by
        refine Or.inr (Or.inr ⟨rfl, ?_⟩)
        intro hgap
        rcases hshape with ⟨rfl, rfl⟩ | ⟨_, hdbl⟩
        · linarith
        · rw [hdbl] at hgap ⊢; linarith
      have hlo' : lo = 0 ∨ f lo ≤ 0 := by
        rcases hshape with ⟨rfl, _⟩ | ⟨hfl, _⟩
        · exact Or.inl rfl
        · exact Or.inr hfl
      obtain ⟨h20, h2lh, h2flo, h2fhi, h2gap, h2md⟩ :=
        bisect_spec_some hbs hlo0 hlh hlo' hfhi hmd0
      by_cases hfr : f (roundCent md) ≤ 0
      · rw [hr, if_pos hfr]
        have hge : hi₂ ≤ roundCent md + 1 / 100 := by
          rcases h2md with rfl | rfl | ⟨rfl, hsm⟩
          · have := roundCent_ge md; linarith
          · have := roundCent_ge md; linarith
          · rw [roundCent_zero]; linarith
        have := hmono hge
        linarith [this, h2fhi]
      · rw [hr, if_neg hfr]
        exact (lt_of_not_le hfr).le

/-- Minimality of the spec solver under monotonicity: if the zero premium is
insufficient, then one cent below the returned premium is insufficient. -/
theorem solve_spec_min {f : ℚ → ℚ} {F : ℚ} {fuel : ℕ} {r : ℚ}
    (hmono : Monotone f) (hF : 0 < F) (hf0 : f 0 ≤ 0)
    (h : solve_premium_spec f F fuel = some r) : f (r - 1 / 100) ≤ 0 := by
  cases hbr : bracket_spec f fuel 0 (F / 100) with
  | none => rw [solve_premium_spec_nobr hbr] at h; exact absurd h (by simp)
  | some p =>
    obtain ⟨lo, hi⟩ := p
    cases hbs : bisect_spec f fuel lo hi 0 with
    | none => rw [solve_premium_spec_nobs hbr hbs] at h; exact absurd h (by simp)
    | some q =>
      obtain ⟨lo₂, hi₂, md⟩ := q
      rw [solve_premium_spec_eqn hbr hbs] at h
      have hr : r = if f (roundCent md) ≤ 0 then roundCent md + 1 / 100 else roundCent md :=
        (Option.some.inj h).symm
      obtain ⟨hlo0, hlh, hhipos, hfhi, hshape⟩ :=
        bracket_spec_some hbr le_rfl (by positivity) (by positivity)
      have hmd0 : (0 : ℚ) = lo ∨ (0 : ℚ) = hi ∨ ((0 : ℚ) = 0 ∧ (hi - lo ≤ 1 / 200 → hi ≤ 1 / 100)) := by
        refine Or.inr (Or.inr ⟨rfl, ?_⟩)
        intro hgap
        rcases hshape with ⟨rfl, rfl⟩ | ⟨_, hdbl⟩
        · linarith
        · rw [hdbl] at hgap ⊢; linarith
      have hlo' : lo = 0 ∨ f lo ≤ 0 := by
        rcases hshape with ⟨rfl, _⟩ | ⟨hfl, _⟩
        · exact Or.inl rfl
        · exact Or.inr hfl
      obtain ⟨h20, h2lh, h2flo, h2fhi, h2gap, h2md⟩ :=
        bisect_spec_some hbs hlo0 hlh hlo' hfhi hmd0
      have h2flo' : f lo₂ ≤ 0 := by
        rcases h2flo with rfl | hle
        · exact hf0
        · exact hle
      by_cases hfr : f (roundCent md) ≤ 0
      · rw [hr, if_pos hfr]
        simpa using hfr
      · rw [hr, if_neg hfr]
        have hle : roundCent md - 1 / 100 ≤ lo₂ := by
          rcases h2md with rfl | rfl | ⟨rfl, hsm⟩
          · have := roundCent_le md; linarith
          · have := roundCent_le md; linarith
          · rw [roundCent_zero]; linarith
        exact le_trans (hmono hle) h2flo'

/-- Bracketing succeeds with more fuel, returning the same bracket. -/
theorem bracket_spec_fuel {f : ℚ → ℚ} :
    ∀ {n m : ℕ} {lo hi : ℚ} {r : ℚ × ℚ}, n ≤ m →
      bracket_spec f n lo hi = some r → bracket_spec f m lo hi = some r := by
  intro n
  induction n with
  | zero => intro m lo hi r _ h; exact absurd h (by simp [bracket_spec])
  | succ n ih =>
    intro m lo hi r hnm h
    obtain ⟨m', rfl⟩ : ∃ m', m = m' + 1 := ⟨m - 1, by omega⟩
    rw [bracket_spec] at h ⊢
    by_cases hf : f hi ≤ 0
    · rw [if_pos hf] at h ⊢; exact ih (by omega) h
    · rw [if_neg hf] at h ⊢; exact h

/-- Bisection succeeds with more fuel, returning the same triple. -/
theorem bisect_spec_fuel {f : ℚ → ℚ} :
    ∀ {n m : ℕ} {lo hi md : ℚ} {r : ℚ × ℚ × ℚ}, n ≤ m →
      bisect_spec f n lo hi md = some r → bisect_spec f m lo hi md = some r := by
  intro n
  induction n with
  | zero =>
    intro m lo hi md r _ h
    rw [bisect_spec] at h
    by_cases hgap : hi - lo > 1 / 200
    · rw [if_pos hgap] at h; exact absurd h (by simp)
    · rw [if_neg hgap] at h
      rw [bisect_spec_stop (not_lt.mp hgap) m md]
      exact h
  | succ n ih =>
    intro m lo hi md r hnm h
    obtain ⟨m', rfl⟩ : ∃ m', m = m' + 1 := ⟨m - 1, by omega⟩
    rw [bisect_spec] at h ⊢
    by_cases hgap : hi - lo > 1 / 200
    · rw [if_pos hgap] at h ⊢
      simp only at h ⊢
      by_cases hf : f ((lo + hi) / 2) ≤ 0
      · rw [if_pos hf] at h ⊢; exact ih (by omega) h
      · rw [if_neg hf] at h ⊢; exact ih (by omega) h
    · rw [if_neg hgap] at h ⊢; exact h

/-- If some premium beyond `p₀` works, repeated doubling reaches it:
bracketing terminates with enough fuel. -/
theorem bracket_spec_total {f : ℚ → ℚ} (hmono : Monotone f) {p₀ : ℚ} (hp₀ : 0 < f p₀) :
    ∀ (k : ℕ) (lo hi : ℚ), 0 < hi → p₀ ≤ hi * 2 ^ k →
      ∃ r, bracket_spec f (k + 1) lo hi = some r := by
  intro k
  induction k with
  | zero =>
    intro lo hi hhi hle
    have : 0 < f hi := lt_of_lt_of_le hp₀ (hmono (by simpa using hle))
    exact ⟨(lo, hi), bracket_spec_exit this 0 lo⟩
  | succ k ih =>
    intro lo hi hhi hle
    by_cases hf : f hi ≤ 0
    · have h2 : p₀ ≤ 2 * hi * 2 ^ k := by
        have : hi * 2 ^ (k + 1) = 2 * hi * 2 ^ k := by ring
        linarith [hle, this.symm.le]
      obtain ⟨r, hr⟩ := ih hi (2 * hi) (by linarith) (by linarith [h2])
      exact ⟨r, by rw [bracket_spec_step hf (k + 1) lo]; exact hr⟩
    · exact ⟨(lo, hi), bracket_spec_exit (lt_of_not_le hf) (k + 1) lo⟩

/-- Bisection terminates once the fuel covers the number of halvings needed to
shrink the gap below half a cent. -/
theorem bisect_spec_total {f : ℚ → ℚ} :
    ∀ (n : ℕ) (lo hi md : ℚ), hi - lo ≤ 1 / 200 * 2 ^ n →
      ∃ r, bisect_spec f n lo hi md = some r := by
  intro n
  induction n with
  | zero =>
    intro lo hi md h
    exact ⟨(lo, hi, md), bisect_spec_stop (by simpa using h) 0 md⟩
  | succ n ih =>
    intro lo hi md h
    by_cases hgap : hi - lo > 1 / 200
    · have hhalf : (1 : ℚ) / 200 * 2 ^ (n + 1) = 2 * (1 / 200 * 2 ^ n) := by ring
      by_cases hf : f ((lo + hi) / 2) ≤ 0
      · obtain ⟨r, hr⟩ := ih ((lo + hi) / 2) hi ((lo + hi) / 2) (by rw [hhalf] at h; linarith)
        exact ⟨r, by rw [bisect_spec_stepLo hgap hf n md]; exact hr⟩
      · obtain ⟨r, hr⟩ := ih lo ((lo + hi) / 2) ((lo + hi) / 2) (by rw [hhalf] at h; linarith)
        exact ⟨r, by rw [bisect_spec_stepHi hgap hf n md]; exact hr⟩
    · exact ⟨(lo, hi, md), bisect_spec_stop (not_lt.mp hgap) (n + 1) md⟩

/-- Any positive gap is covered by finitely many halvings. -/
theorem gap_fuel (g : ℚ) : ∃ n : ℕ, g ≤ 1 / 200 * 2 ^ n := by
  rcases le_or_lt g (1 / 200) with h | h
  · exact ⟨0, by simpa using h⟩
  · obtain ⟨n, hn⟩ := pow_unbounded_of_one_lt (g * 200) (by norm_num : (1 : ℚ) < 2)
    exact ⟨n, by linarith⟩

/-- Any target premium is covered by finitely many doublings of a positive
starting point. -/
theorem double_fuel {hi : ℚ} (p₀ : ℚ) (hhi : 0 < hi) : ∃ k : ℕ, p₀ ≤ hi * 2 ^ k := by
  rcases le_or_lt p₀ hi with h | h
  · exact ⟨0, by simpa using h⟩
  · obtain ⟨k, hk⟩ := pow_unbounded_of_one_lt (p₀ / hi) (by norm_num : (1 : ℚ) < 2)
    refine ⟨k, ?_⟩
    rw [div_lt_iff₀ hhi] at hk
    linarith [hk]

/-- Totality of the spec solver: under monotonicity, a positive face amount
and some premium with positive final value, enough fuel makes it return. -/
theorem solve_spec_total {f : ℚ → ℚ} {F : ℚ} (hmono : Monotone f) (hF : 0 < F)
    {p₀ : ℚ} (hp₀ : 0 < f p₀) : ∃ fuel r, solve_premium_spec f F fuel = some r := by
  obtain ⟨k, hk⟩ := double_fuel p₀ (show (0 : ℚ) < F / 100 by positivity)
  obtain ⟨⟨lo, hi⟩, hbr⟩ := bracket_spec_total hmono hp₀ k 0 (F / 100) (by positivity) hk
  obtain ⟨n, hn⟩ := gap_fuel (hi - lo)
  obtain ⟨⟨lo₂, hi₂, md⟩, hbs⟩ := bisect_spec_total (f := f) n lo hi 0 hn
  refine ⟨max (k + 1) n, if f (roundCent md) ≤ 0 then roundCent md + 1 / 100 else roundCent md, ?_⟩
  exact solve_premium_spec_eqn (bracket_spec_fuel (le_max_left (k + 1) n) hbr)
    (bisect_spec_fuel (le_max_right (k + 1) n) hbs)

/-- A row loop whose rows all fail their match guard leaves the array
untouched and succeeds. -/
theorem readRows_nomatch {α : Type} {tw : α → Option (ℤ × ℚ)} :
    ∀ (rows : List α) (arr : ℕ → ℚ), (∀ r ∈ rows, tw r = none) →
      readRows tw rows arr = some arr := by
  intro rows
  induction rows with
  | nil => intro arr _; rfl
  | cons r rest ih =>
    intro arr hall
    rw [readRows, hall r (List.mem_cons_self r rest)]
    exact ih arr (fun x hx => hall x (List.mem_cons_of_mem r hx))

/-- A row loop all of whose matching rows target in-bounds indices succeeds. -/
theorem readRows_total {α : Type} {tw : α → Option (ℤ × ℚ)} :
    ∀ (rows : List α) (arr : ℕ → ℚ),
      (∀ r ∈ rows, ∀ idx x, tw r = some (idx, x) → 0 ≤ idx ∧ idx < 121) →
      (readRows tw rows arr).isSome := by
  intro rows
  induction rows with
  | nil => intro arr _; rfl
  | cons r rest ih =>
    intro arr hall
    cases htw : tw r with
    | none =>
      rw [readRows, htw]
      exact ih arr (fun x hx => hall x (List.mem_cons_of_mem r hx))
    | some p =>
      obtain ⟨idx, x⟩ := p
      rw [readRows, htw]
      simp only [writeRate]
      rw [if_pos (hall r (List.mem_cons_self r rest) idx x htw)]
      exact ih _ (fun y hy => hall y (List.mem_cons_of_mem r hy))

/-- Folding the last-match accumulator from an arbitrary seed. -/
theorem lastWrite_acc (j : ℕ) :
    ∀ (ws : List (ℤ × ℚ)) (acc : Option ℚ),
      ws.foldl (fun acc w => if w.1 = (j : ℤ) then some w.2 else acc) acc =
        (lastWrite ws j).elim acc some := by
  intro ws
  induction ws with
  | nil => intro acc; rfl
  | cons w ws ih =>
    intro acc
    rw [List.foldl_cons, lastWrite, List.foldl_cons, ih, ih]
    cases hlw : lastWrite ws j with
    | some v => simp
    | none => by_cases h : w.1 = (j : ℤ) <;> simp [h]

/-- Last match wins: a successful row loop leaves at index `j` the rate of the
last write targeting `j`, or the initial array value if no write targets it. -/
theorem readRows_last {α : Type} {tw : α → Option (ℤ × ℚ)} (j : ℕ) :
    ∀ (rows : List α) (arr out : ℕ → ℚ), readRows tw rows arr = some out →
      out j = (lastWrite (rows.filterMap tw) j).elim (arr j) id := by
  intro rows
  induction rows with
  | nil =>
    intro arr out h
    have : arr = out := Option.some.inj h
    subst this
    rfl
  | cons r rest ih =>
    intro arr out h
    cases htw : tw r with
    | none =>
      rw [readRows, htw] at h
      rw [List.filterMap_cons_none htw]
      exact ih arr out h
    | some p =>
      obtain ⟨idx, x⟩ := p
      rw [readRows, htw] at h
      simp only [writeRate] at h
      by_cases hb : 0 ≤ idx ∧ idx < 121
      · rw [if_pos hb] at h
        have hih := ih _ out h
        rw [List.filterMap_cons_some htw]
        have hcons : lastWrite ((idx, x) :: rest.filterMap tw) j =
            (lastWrite (rest.filterMap tw) j).elim
              (if idx = (j : ℤ) then some x else none) some := by
          rw [lastWrite, List.foldl_cons, lastWrite_acc]
        rw [hcons]
        cases hlw : lastWrite (rest.filterMap tw) j with
        | some v => rw [hlw] at hih; exact hih
        | none =>
          rw [hlw] at hih
          simp only [Option.elim] at hih ⊢
          by_cases hj : idx = (j : ℤ)
          · rw [if_pos hj]
            rw [hih]
            simp [hj.symm]
          · rw [if_neg hj]
            rw [hih]
            simp only [Option.elim]
            have : ¬ ((j : ℤ) = idx) := fun hc => hj hc.symm
            simp [this]
      · rw [if_neg hb] at h
        exact absurd h (by simp)

theorem loadT_month (F P : ℚ) (i : ℕ) (s : ℚ) :
    specMonth loadT F P i s = s - (if i % 12 = 0 then P else 0) := by
  have h1 : max (0 : ℚ) (-(max 0 (s - (if i % 12 = 0 then P else 0)))) = 0 :=
    max_eq_left (neg_nonpos.mpr (le_max_left 0 _))
  by_cases h : i % 12 = 0 <;> simp [specMonth, loadT, zeroT, h]
  ring_nf

/-- On the 200%-load table at issue age 120 the projection is the negated
premium: paying more strictly hurts. -/
theorem project_spec_loadT (F P : ℚ) : project_spec loadT 120 F P = -P := by
  show (List.range (12 * (121 - 120))).foldl _ 0 = -P
  norm_num [range12, loadT_month]

theorem stuckT_month (F P : ℚ) (i : ℕ) (s : ℚ) :
    specMonth stuckT F P i s = s - 10 := by
  have h1 : max (0 : ℚ) (-(max 0 (s - 10))) = 0 :=
    max_eq_left (neg_nonpos.mpr (le_max_left 0 _))
  by_cases h : i % 12 = 0 <;> simp [specMonth, stuckT, zeroT, h] <;> ring_nf

/-- On the 100%-load, 120/year-fee table at issue age 120 every premium
projects to `-120`: the objective is constantly non-positive. -/
theorem project_spec_stuckT (F P : ℚ) : project_spec stuckT 120 F P = -120 := by
  show (List.range (12 * (121 - 120))).foldl _ 0 = -120
  norm_num [range12, stuckT_month]

/-- Bracketing never exits on the stuck table: every doubling still projects
to `-120 ≤ 0`, so every fuel is exhausted. -/
theorem bracket_spec_stuckT (F : ℚ) :
    ∀ (n : ℕ) (lo hi : ℚ), bracket_spec (project_spec stuckT 120 F) n lo hi = none := by
  intro n
  induction n with
  | zero => intro lo hi; rfl
  | succ n ih =>
    intro lo hi
    rw [bracket_spec_step (by rw [project_spec_stuckT]; norm_num) n lo]
    exact ih _ _

/-- The source solver diverges on the stuck table: no fuel suffices. -/
theorem solve_stuckT_none (fuel : ℕ) (F : ℚ) :
    solve_for_premium fuel stuckT 120 F = none := by
  rw [solve_eq]
  exact solve_premium_spec_nobr (bracket_spec_stuckT F fuel 0 (F / 100))

theorem zeroT_monotone : MonotoneTable zeroT 1 := by
  refine ⟨by norm_num, fun j _ => ?_⟩
  norm_num [zeroT]

/- ------------------------------------------------------------------ -/
/- Claims.                                                             -/
/- ------------------------------------------------------------------ -/

/-- C1 (amended).  For a rate table satisfying the monotonicity conditions
(`MonotoneTable`), a positive face amount, and some premium whose projection
is positive, the solver terminates (for enough fuel), and any premium it
returns projects to a non-negative final account value.  The original claim,
quantifying over every rate table, fails: see the counterexample, where the
bracketing loop never terminates. -/
theorem claim_C1_amended :
    ∀ (t : RateTable) (a : ℕ) (F : ℚ), a < 121 → MonotoneTable t F → 0 < F →
      (∃ p₀, 0 < project_spec t a F p₀) →
      (∃ fuel r, solve_for_premium fuel t a F = some r) ∧
      (∀ fuel r, solve_for_premium fuel t a F = some r →
        ∀ v, at_issue_projection t a F r = some v → 0 ≤ v) := by
  intro t a F _ha hmt hF hex
  obtain ⟨p₀, hp₀⟩ := hex
  have hmono := project_spec_mono a hmt
  constructor
  · obtain ⟨fuel, r, hr⟩ := solve_spec_total hmono hF hp₀
    exact ⟨fuel, r, by rw [solve_eq]; exact hr⟩
  · intro fuel r hr v hv
    rw [solve_eq] at hr
    have hs := solve_spec_sound hmono hF hr
    rw [proj_eq] at hv
    rw [← Option.some.inj hv]
    exact hs

/-- C1 counterexample.  On the 100%-load, 120/year-fee table (valid inputs:
issue age `120 < 121`, face amount `1 > 0`) the solver never returns any
premium at all, refuting the claim as stated for every rate table. -/
theorem claim_C1_counterexample :
    (120 < 121 ∧ (0 : ℚ) < 1) ∧
      ¬ ((∃ fuel r, solve_for_premium fuel stuckT 120 1 = some r) ∧
        (∀ fuel r, solve_for_premium fuel stuckT 120 1 = some r →
          ∀ v, at_issue_projection stuckT 120 1 r = some v → 0 ≤ v)) := by
  refine ⟨⟨by norm_num, by norm_num⟩, fun h => ?_⟩
  obtain ⟨⟨fuel, r, hr⟩, _⟩ := h
  rw [solve_stuckT_none] at hr
  exact absurd hr (by simp)

/-- C1 witness: the amended theorem applied to the all-zero table. -/
theorem claim_C1_witness :
    120 < 121 ∧ MonotoneTable zeroT 1 ∧ (0 : ℚ) < 1 ∧
      (∃ p₀, 0 < project_spec zeroT 120 1 p₀) ∧
      (∃ fuel r, solve_for_premium fuel zeroT 120 1 = some r) :=
  ⟨by norm_num, zeroT_monotone, by norm_num,
    ⟨1, by rw [project_spec_zeroT]; norm_num⟩,
    (claim_C1_amended zeroT 120 1 (by norm_num) zeroT_monotone (by norm_num)
      ⟨1, by rw [project_spec_zeroT]; norm_num⟩).1⟩

/-- C2 (confirmed).  For every rate table, issue age `a < 121`, face amount
and premium, the source projection runs exactly `12 * (121 - a)` months,
incrementing the policy year at each month with `i % 12 = 0`, crediting the
annual premium only in the first month of each policy year, and applying
premium load, expense charge, corridor-floored death benefit, zero-floored
NAAR (net of `max 0 av`), COI and zero-floored interest — i.e. it returns the
spec's reference recurrence `project_spec`. -/
theorem claim_C2 :
    ∀ (t : RateTable) (a : ℕ) (F P : ℚ), a < 121 →
      at_issue_projection t a F P = some (project_spec t a F P) :=
  fun t a F P _ => proj_eq t a F P

/-- C2 witness: the reference equality at a concrete instance. -/
theorem claim_C2_witness :
    120 < 121 ∧ at_issue_projection zeroT 120 3 2 = some (project_spec zeroT 120 3 2) :=
  ⟨by norm_num, claim_C2 zeroT 120 3 2 (by norm_num)⟩

/-- C3 (confirmed).  The source solver follows exactly the spec's two-phase
algorithm: bracketing from `lo = 0`, `hi = F/100` with `lo := hi; hi := 2*hi`
while `f hi ≤ 0`; bisection while `hi - lo > 0.005` moving `lo` to the
midpoint when `f mid ≤ 0` and `hi` otherwise; rounding the final midpoint to
the nearest cent; and adding one cent exactly once if `f rounded ≤ 0`. -/
theorem claim_C3 :
    ∀ (fuel : ℕ) (t : RateTable) (a : ℕ) (F : ℚ),
      solve_for_premium fuel t a F = solve_premium_spec (project_spec t a F) F fuel :=
  fun fuel t a F => solve_eq fuel t a F

/-- C4 (amended).  Under the `MonotoneTable` conditions (premium loads at most
100%, non-negative corridor/discount with product at most 1, non-negative COI
rates, crediting rate at least −100%, non-negative face), the projection is
monotone in the premium.  The original claim, for every rate table, fails:
see the counterexample with a 200% premium load. -/
theorem claim_C4_amended :
    ∀ (t : RateTable) (a : ℕ) (F p₁ p₂ : ℚ), MonotoneTable t F → p₁ < p₂ →
      ∀ v₁ v₂, at_issue_projection t a F p₁ = some v₁ →
        at_issue_projection t a F p₂ = some v₂ → v₁ ≤ v₂ := by
  intro t a F p₁ p₂ hmt hlt v₁ v₂ h₁ h₂
  rw [proj_eq] at h₁ h₂
  rw [← Option.some.inj h₁, ← Option.some.inj h₂]
  exact project_spec_mono a hmt hlt.le

/-- C4 counterexample.  With a 200% premium load, premium 0 projects to 0 but
premium 1 projects to −1: the projection is not monotone in the premium for
every rate table. -/
theorem claim_C4_counterexample :
    ((0 : ℚ) < 1) ∧
      ¬ (∀ v₁ v₂ : ℚ, at_issue_projection loadT 120 1000 0 = some v₁ →
        at_issue_projection loadT 120 1000 1 = some v₂ → v₁ ≤ v₂) := by
  refine ⟨by norm_num, fun h => ?_⟩
  have h0 : at_issue_projection loadT 120 1000 0 = some 0 := by
    rw [proj_eq, project_spec_loadT]; norm_num
  have h1 : at_issue_projection loadT 120 1000 1 = some (-1) := by
    rw [proj_eq, project_spec_loadT]
  have := h 0 (-1) h0 h1
  norm_num at this

/-- C4 witness: monotonicity at a concrete monotone table. -/
theorem claim_C4_witness :
    MonotoneTable zeroT 1 ∧ ((0 : ℚ) < 1) ∧
      at_issue_projection zeroT 120 1 0 = some 0 ∧
      at_issue_projection zeroT 120 1 1 = some 1 ∧ (0 : ℚ) ≤ 1 := by
  have h0 : at_issue_projection zeroT 120 1 0 = some 0 := by
    rw [proj_eq, project_spec_zeroT]
  have h1 : at_issue_projection zeroT 120 1 1 = some 1 := by
    rw [proj_eq, project_spec_zeroT]
  exact ⟨zeroT_monotone, by norm_num, h0, h1,
    claim_C4_amended zeroT 120 1 0 1 zeroT_monotone (by norm_num) 0 1 h0 h1⟩

/-- C5 (amended).  Under the `MonotoneTable` conditions and insolvency of the
zero premium, any premium the solver returns is minimal in the weak sense:
one cent less projects to a final value that is not positive (`≤ 0`).  The
original strict claim (`< 0`) fails: see the counterexample, where one cent
less projects to exactly 0. -/
theorem claim_C5_amended :
    ∀ (t : RateTable) (a : ℕ) (F : ℚ), a < 121 → 0 < F → MonotoneTable t F →
      project_spec t a F 0 ≤ 0 →
      ∀ fuel r, solve_for_premium fuel t a F = some r →
        ∀ v, at_issue_projection t a F (r - 1 / 100) = some v → v ≤ 0 := by
  intro t a F _ha hF hmt h0 fuel r hr v hv
  rw [solve_eq] at hr
  have hmono := project_spec_mono a hmt
  have hmin := solve_spec_min hmono hF h0 hr
  rw [proj_eq] at hv
  rw [← Option.some.inj hv]
  exact hmin

/-- C5 counterexample.  On the all-zero table with face 1 the solver returns
0.01, and one cent less (premium 0) projects to exactly 0 — not strictly
below zero as the claim states. -/
theorem claim_C5_counterexample :
    solve_for_premium 10 zeroT 120 1 = some (1 / 100) ∧
      at_issue_projection zeroT 120 1 (1 / 100 - 1 / 100) = some 0 ∧
      ¬ ((0 : ℚ) < 0) := by
  refine ⟨solve_zeroT, ?_, by norm_num⟩
  rw [proj_eq, project_spec_zeroT]
  norm_num

/-- C5 witness: the amended theorem applied to the all-zero table at the
solver output computed with fuel 10. -/
theorem claim_C5_witness :
    120 < 121 ∧ (0 : ℚ) < 1 ∧ MonotoneTable zeroT 1 ∧ project_spec zeroT 120 1 0 ≤ 0 ∧
      solve_for_premium 10 zeroT 120 1 = some (1 / 100) ∧
      at_issue_projection zeroT 120 1 (1 / 100 - 1 / 100) = some 0 ∧ (0 : ℚ) ≤ 0 := by
  have hv : at_issue_projection zeroT 120 1 (1 / 100 - 1 / 100) = some 0 := by
    rw [proj_eq, project_spec_zeroT]; norm_num
  refine ⟨by norm_num, by norm_num, zeroT_monotone,
    by rw [project_spec_zeroT], solve_zeroT, hv, ?_⟩
  exact claim_C5_amended zeroT 120 1 (by norm_num) (by norm_num) zeroT_monotone
    (by rw [project_spec_zeroT]) 10 (1 / 100) solve_zeroT 0 hv

/-- C6 (amended).  For a monotone rate table, positive face amount and some
premium projecting positive, a solve call terminates: some finite fuel makes
`solve_for_premium` return, with no caller-supplied upper premium bound.  The
original claim, for every rate table and face amount, fails: see the
counterexample, where bracketing doubles forever. -/
theorem claim_C6_amended :
    ∀ (t : RateTable) (a : ℕ) (F : ℚ), 0 < F → MonotoneTable t F →
      (∃ p₀, 0 < project_spec t a F p₀) →
      ∃ fuel, (solve_for_premium fuel t a F).isSome := by
  intro t a F hF hmt hex
  obtain ⟨p₀, hp₀⟩ := hex
  obtain ⟨fuel, r, hr⟩ := solve_spec_total (project_spec_mono a hmt) hF hp₀
  refine ⟨fuel, ?_⟩
  rw [solve_eq, hr]
  rfl

/-- C6 counterexample.  On the 100%-load, 120/year-fee table every premium
projects to −120, `f hi ≤ 0` holds at every doubling, and no amount of fuel
makes the solver return: the bracketing phase does not terminate for every
rate table. -/
theorem claim_C6_counterexample :
    ¬ ∃ fuel, (solve_for_premium fuel stuckT 120 1).isSome := by
  rintro ⟨fuel, h⟩
  rw [solve_stuckT_none] at h
  simp at h

/-- C6 witness: termination on the all-zero table. -/
theorem claim_C6_witness :
    (0 : ℚ) < 1 ∧ MonotoneTable zeroT 1 ∧ (0 : ℚ) < project_spec zeroT 120 1 1 ∧
      ∃ fuel, (solve_for_premium fuel zeroT 120 1).isSome :=
  ⟨by norm_num, zeroT_monotone, by rw [project_spec_zeroT]; norm_num,
    claim_C6_amended zeroT 120 1 (by norm_num) zeroT_monotone
      ⟨1, by rw [project_spec_zeroT]; norm_num⟩⟩

/-- C7 (amended).  Rate-table construction never takes the out-of-bounds
branch provided duration-keyed rows have `policy_year ∈ [1, 121]` and
attained-age rows satisfy `attained_age ≤ issue_age + 120`.  The original
inbound contract (all ages and durations non-negative and `≤ 121`) is not
enough: see the counterexample with a duration-0 row. -/
theorem claim_C7_amended :
    ∀ (iaRows : List IAPYRecord) (genRows : List GenRCIAPYRecord)
      (aaRows : List AARecord) (d₁ d₂ d₃ : ℚ) (g rc : String) (ia : ℤ),
      0 ≤ ia → ia ≤ 120 →
      (∀ r ∈ iaRows, 1 ≤ r.policy_year ∧ r.policy_year ≤ 121) →
      (∀ r ∈ genRows, 1 ≤ r.policy_year ∧ r.policy_year ≤ 121) →
      (∀ r ∈ aaRows, r.attained_age ≤ ia + 120) →
      (read_ia_py_csv iaRows d₁ ia).isSome ∧
        (read_gen_rc_ia_py_csv genRows d₂ g rc ia).isSome ∧
        (read_aa_csv aaRows d₃ ia).isSome := by
  intro iaRows genRows aaRows d₁ d₂ d₃ g rc ia _h0 _h120 hia hgen haa
  refine ⟨readRows_total _ _ ?_, readRows_total _ _ ?_, readRows_total _ _ ?_⟩
  · intro r hr idx x htw
    unfold iapyWrite at htw
    by_cases h : r.issue_age = ia
    · rw [if_pos h] at htw
      have hidx : r.policy_year - 1 = idx := (Prod.mk.injEq _ _ _ _ ▸ Option.some.inj htw).1
      have := hia r hr
      omega
    · rw [if_neg h] at htw
      exact absurd htw (by simp)
  · intro r hr idx x htw
    unfold genWrite at htw
    by_cases h : r.gender = g ∧ r.risk_class = rc ∧ r.issue_age = ia
    · rw [if_pos h] at htw
      have hidx : r.policy_year - 1 = idx := (Prod.mk.injEq _ _ _ _ ▸ Option.some.inj htw).1
      have := hgen r hr
      omega
    · rw [if_neg h] at htw
      exact absurd htw (by simp)
  · intro r hr idx x htw
    unfold aaWrite at htw
    by_cases h : ia ≤ r.attained_age
    · rw [if_pos h] at htw
      have hidx : r.attained_age - ia = idx := (Prod.mk.injEq _ _ _ _ ▸ Option.some.inj htw).1
      have := haa r hr
      omega
    · rw [if_neg h] at htw
      exact absurd htw (by simp)

/-- C7 counterexample.  A duration-keyed row with `policy_year = 0` satisfies
the spec's inbound contract (all fields non-negative and at most 121), yet
the matching write targets index `-1` — in Rust, `(0 - 1) as usize` wraps to
a huge index and the access panics; here the reader returns `none`. -/
theorem claim_C7_counterexample :
    ((0 : ℤ) ≤ 35 ∧ (35 : ℤ) ≤ 121 ∧ (0 : ℤ) ≤ 0 ∧ (0 : ℤ) ≤ 121 ∧
      (0 : ℤ) ≤ 35 ∧ (35 : ℤ) ≤ 120) ∧
      read_ia_py_csv [⟨35, 0, 1⟩] 0 35 = none := by
  refine ⟨by norm_num, ?_⟩
  rfl

/-- C7 witness: in-bounds construction at boundary rows. -/
theorem claim_C7_witness :
    ((0 : ℤ) ≤ 35 ∧ (35 : ℤ) ≤ 120) ∧
      (read_ia_py_csv [⟨35, 1, 5⟩] 0 35).isSome ∧
        (read_gen_rc_ia_py_csv [⟨"M", "NS", 35, 121, 3⟩] 0 "M" "NS" 35).isSome ∧
        (read_aa_csv [⟨155, 2⟩] 1 35).isSome :=
  ⟨by norm_num,
    claim_C7_amended [⟨35, 1, 5⟩] [⟨"M", "NS", 35, 121, 3⟩] [⟨155, 2⟩] 0 0 1 "M" "NS" 35
      (by norm_num) (by norm_num) (by decide) (by decide) (by decide)⟩

/-- C8 (amended).  Issue age 120 yields a projection of exactly 12 months;
but issue age 121 or above is not a fatal failure: the month loop is empty
(`12 * (121 - a) ≤ 0`) and the projection returns `0.0`.  The original
claim's second half (fatal failure) is refuted by the counterexample. -/
theorem claim_C8_amended :
    (∀ (t : RateTable) (F P : ℚ),
        at_issue_projection t 120 F P = projChecked t F P 12 0 0 0) ∧
      (∀ (t : RateTable) (a : ℕ) (F P : ℚ), 121 ≤ a →
        at_issue_projection t a F P = some 0) := by
  constructor
  · intro t F P; rfl
  · intro t a F P h
    unfold at_issue_projection
    rw [Nat.sub_eq_zero_of_le h, Nat.mul_zero]
    rfl

/-- C8 counterexample.  At issue age 121 the projection returns the value
`0.0` — it does not fail. -/
theorem claim_C8_counterexample :
    at_issue_projection zeroT 121 5 7 = some 0 ∧
      at_issue_projection zeroT 121 5 7 ≠ none := by
  constructor
  · rfl
  · intro h
    exact absurd h (by simp [at_issue_projection, projChecked])

/-- C8 witness: the empty projection applied at issue age 121. -/
theorem claim_C8_witness :
    121 ≤ 121 ∧ at_issue_projection zeroT 121 3 4 = some 0 :=
  ⟨le_refl 121, claim_C8_amended.2 zeroT 121 3 4 (le_refl 121)⟩

/-- C9 (confirmed).  If no row matches the requested cohort, every data-driven
series of the constructed rate table equals its declared default everywhere
(0 for unit loads and COI rates, 1 for corridor factors), and construction
succeeds. -/
theorem claim_C9 :
    ∀ (unitRows : List IAPYRecord) (corrRows : List AARecord)
      (coiRows : List GenRCIAPYRecord) (nd mi : ℚ) (g rc : String) (ia : ℤ),
      (∀ r ∈ unitRows, r.issue_age ≠ ia) →
      (∀ r ∈ corrRows, r.attained_age < ia) →
      (∀ r ∈ coiRows, ¬ (r.gender = g ∧ r.risk_class = rc ∧ r.issue_age = ia)) →
      ∃ t, get_rates unitRows corrRows coiRows nd mi g rc ia = some t ∧
        (∀ j, t.unit_loads j = 0) ∧ (∀ j, t.corr_facts j = 1) ∧
        (∀ j, t.coi_rates j = 0) := by
  intro unitRows corrRows coiRows nd mi g rc ia hu hc hg
  have h1 : read_ia_py_csv unitRows 0 ia = some (fun _ => 0) :=
    readRows_nomatch _ _ (fun r hr => by unfold iapyWrite; rw [if_neg (hu r hr)])
  have h2 : read_aa_csv corrRows 1 ia = some (fun _ => 1) :=
    readRows_nomatch _ _ (fun r hr => by
      unfold aaWrite; rw [if_neg (not_le.mpr (hc r hr))])
  have h3 : read_gen_rc_ia_py_csv coiRows 0 g rc ia = some (fun _ => 0) :=
    readRows_nomatch _ _ (fun r hr => by unfold genWrite; rw [if_neg (hg r hr)])
  refine ⟨⟨fun _ => 6 / 100, fun _ => 120, fun _ => 0, fun _ => 1, fun _ => nd,
    fun _ => 0, fun _ => mi⟩, ?_, fun j => rfl, fun j => rfl, fun j => rfl⟩
  simp only [get_rates, h1, h2, h3]

/-- C9 witness: construction for a cohort absent from every row. -/
theorem claim_C9_witness :
    ((∀ r ∈ ([⟨5, 3, 1 / 2⟩] : List IAPYRecord), r.issue_age ≠ (35 : ℤ)) ∧
      (∀ r ∈ ([⟨20, 2⟩] : List AARecord), r.attained_age < (35 : ℤ)) ∧
      (∀ r ∈ ([⟨"F", "SM", 35, 2, 9⟩] : List GenRCIAPYRecord),
        ¬ (r.gender = "M" ∧ r.risk_class = "NS" ∧ r.issue_age = (35 : ℤ)))) ∧
      ∃ t, get_rates [⟨5, 3, 1 / 2⟩] [⟨20, 2⟩] [⟨"F", "SM", 35, 2, 9⟩] 1 0 "M" "NS" 35 =
          some t ∧
        (∀ j, t.unit_loads j = 0) ∧ (∀ j, t.corr_facts j = 1) ∧
        (∀ j, t.coi_rates j = 0) :=
  ⟨⟨by decide, by decide, by decide⟩,
    claim_C9 [⟨5, 3, 1 / 2⟩] [⟨20, 2⟩] [⟨"F", "SM", 35, 2, 9⟩] 1 0 "M" "NS" 35
      (by decide) (by decide) (by decide)⟩

/-- C10 (confirmed).  When several rows match the same cohort and target the
same series index, the constructed series holds the rate of the last matching
row in input order: each of the three readers leaves at index `j` the last
write targeting `j`, or the default if none does. -/
theorem claim_C10 :
    (∀ (rows : List IAPYRecord) (d : ℚ) (ia : ℤ) (out : ℕ → ℚ) (j : ℕ),
        read_ia_py_csv rows d ia = some out →
        out j = (lastWrite (rows.filterMap (iapyWrite ia)) j).elim d id) ∧
      (∀ (rows : List GenRCIAPYRecord) (d : ℚ) (g rc : String) (ia : ℤ)
          (out : ℕ → ℚ) (j : ℕ),
        read_gen_rc_ia_py_csv rows d g rc ia = some out →
        out j = (lastWrite (rows.filterMap (genWrite g rc ia)) j).elim d id) ∧
      (∀ (rows : List AARecord) (d : ℚ) (ia : ℤ) (out : ℕ → ℚ) (j : ℕ),
        read_aa_csv rows d ia = some out →
        out j = (lastWrite (rows.filterMap (aaWrite ia)) j).elim d id) :=
  ⟨fun rows _d _ia out j h => readRows_last j rows _ out h,
    fun rows _d _g _rc _ia out j h => readRows_last j rows _ out h,
    fun rows _d _ia out j h => readRows_last j rows _ out h⟩

/-- C10 witness: two rows for issue age 35, policy year 3 — the series holds
the second row's rate, 7. -/
theorem claim_C10_witness :
    ∃ out, read_ia_py_csv demoRows 0 35 = some out ∧
      out 2 = (lastWrite (demoRows.filterMap (iapyWrite 35)) 2).elim 0 id ∧
      (lastWrite (demoRows.filterMap (iapyWrite 35)) 2).elim (0 : ℚ) id = 7 := by
  obtain ⟨out, hout⟩ : ∃ out, read_ia_py_csv demoRows 0 35 = some out := ⟨_, rfl⟩
  exact ⟨out, hout, claim_C10.1 demoRows 0 35 out 2 hout, by decide⟩

end Valact
